import Mathlib

/-!
Verification development for the DLS-to-HDL netlist lowering pass
(`fixed_converter.py`): a shallow embedding of the converter's data model
and algorithms, followed by theorems about its documented properties.

Python dictionaries are modelled as association lists in insertion order
(first-insertion position, last-written value), matching CPython `dict`
semantics.  Machine strings are Lean `String`s; all arithmetic is on `Nat`
(the source never overflows or goes negative where it matters).
-/

/-! ## Generic string and list utilities mirroring the Python built-ins used -/

/-- `str.lower()` restricted to the character-wise lowering Python performs
on ASCII input. -/
def strLower (s : String) : String :=
  String.mk (s.data.map Char.toLower)

/-- `str.replace(c, "")` for a single-character pattern: drop every
occurrence of `c`. -/
def removeChar (c : Char) (s : String) : String :=
  String.mk (s.data.filter (fun x => x ≠ c))

/-- `str.capitalize()`: first character uppercased, the rest lowercased. -/
def pyCapitalize (s : String) : String :=
  match s.data with
  | [] => ""
  | c :: cs => String.mk (Char.toUpper c :: cs.map Char.toLower)

/-- Helper for `str.split()` with no argument: accumulate chunks between
whitespace characters. -/
def splitWSAux (cur : List Char) : List Char → List (List Char)
  | [] => [cur.reverse]
  | c :: cs =>
      if c.isWhitespace then cur.reverse :: splitWSAux [] cs
      else splitWSAux (c :: cur) cs

/-- `str.split()` with no argument: split on whitespace runs, dropping
empty chunks. -/
def splitWS (s : String) : List String :=
  ((splitWSAux [] s.data).map String.mk).filter (fun t => t ≠ "")

/-- `sep.join(xs)` / `", ".join(xs)`. -/
def joinSep (sep : String) : List String → String
  | [] => ""
  | [x] => x
  | x :: y :: xs => x ++ sep ++ joinSep sep (y :: xs)

/-- First-occurrence deduplication with an explicit seen-accumulator
(models iteration order of `dict` keys built by repeated insertion). -/
def dedupAux (seen : List Nat) : List Nat → List Nat
  | [] => []
  | x :: xs =>
      if x ∈ seen then dedupAux seen xs
      else x :: dedupAux (x :: seen) xs

/-- The list of distinct values of `l` in first-occurrence order. -/
def dedupFirst (l : List Nat) : List Nat := dedupAux [] l

/-! ## Data model (§3 of the source: `Wire`, `Component`, top-level pins) -/

/-- One top-level interface pin: `{"ID": …, "Name": …, "BitCount": …}`. -/
structure Pin where
  id : Nat
  name : String
  bitCount : Nat
deriving DecidableEq

/-- One wire: source and target `(PinID, PinOwnerID)` addresses. -/
structure Wire where
  sourcePinId : Nat
  sourceOwnerId : Nat
  targetPinId : Nat
  targetOwnerId : Nat
deriving DecidableEq

/-- One component instance (`SubChip`): name, id, and the `PinID`s of
`OutputPinColourInfo` in declared order. -/
structure SubChip where
  name : String
  id : Nat
  outputPinIds : List Nat
deriving DecidableEq

/-- The whole input graph as handed to `FixedConverter.__init__`. -/
structure Graph where
  name : String
  inputPins : List Pin
  outputPins : List Pin
  subChips : List SubChip
  wires : List Wire
deriving DecidableEq

/-! ### Python-dict emulation over the pin / component registries -/

/-- Keys of `{p["ID"]: p for p in pins}` in dict iteration order. -/
def pinIds (ps : List Pin) : List Nat := dedupFirst (ps.map Pin.id)

/-- `dict[i]` for the pin registry: the last pin written under id `i`. -/
def pinLast (ps : List Pin) (i : Nat) : Option Pin :=
  (ps.filter (fun p => p.id == i)).getLast?

/-- `dict.values()` for the pin registry, in dict iteration order. -/
def pinVals (ps : List Pin) : List Pin :=
  (pinIds ps).filterMap (pinLast ps)

/-- `i in dict` for the pin registry. -/
def pinContains (ps : List Pin) (i : Nat) : Bool :=
  ps.any (fun p => p.id == i)

/-- Keys of the component registry in dict iteration order. -/
def compIds (g : Graph) : List Nat := dedupFirst (g.subChips.map SubChip.id)

/-- `self.components[i]`: last subchip written under id `i`. -/
def compLast (g : Graph) (i : Nat) : Option SubChip :=
  (g.subChips.filter (fun c => c.id == i)).getLast?

/-- `self.components.values()` in dict iteration order. -/
def compVals (g : Graph) : List SubChip :=
  (compIds g).filterMap (compLast g)

/-- `i in self.components`. -/
def compContains (g : Graph) (i : Nat) : Bool :=
  g.subChips.any (fun c => c.id == i)

/-! ### Wire buckets (`_map_wires_to_components`): per-instance
`input_wires` / `output_wires` keyed by pin id, in first-seen order. -/

/-- `comp.input_wires[pid]` for component id `cid`: all wires targeting
that pin, in wire-list order. -/
def compInputWires (g : Graph) (cid pid : Nat) : List Wire :=
  g.wires.filter (fun w => w.targetOwnerId == cid && w.targetPinId == pid)

/-- `comp.output_wires[pid]` for component id `cid`. -/
def compOutputWires (g : Graph) (cid pid : Nat) : List Wire :=
  g.wires.filter (fun w => w.sourceOwnerId == cid && w.sourcePinId == pid)

/-- `list(comp.input_wires.keys())`: target pin ids of wires into `cid`,
in first-seen order. -/
def inputPinIdsInOrder (g : Graph) (cid : Nat) : List Nat :=
  dedupFirst ((g.wires.filter (fun w => w.targetOwnerId == cid)).map Wire.targetPinId)

/-- `list(comp.output_wires.keys())`: source pin ids of wires out of
`cid`, in first-seen order. -/
def outputPinIdsInOrder (g : Graph) (cid : Nat) : List Nat :=
  dedupFirst ((g.wires.filter (fun w => w.sourceOwnerId == cid)).map Wire.sourcePinId)

/-! ## `HackChipAPI`: the interface catalog -/

/-- One catalog entry: ordered input and output parameter names. -/
structure ChipSpec where
  inputs : List String
  outputs : List String
deriving DecidableEq

namespace HackChipAPI

/-- `HackChipAPI.CHIPS.get(name)` / `get_chip_spec`. -/
def getChipSpec (n : String) : Option ChipSpec :=
  if n = "Nand" then some ⟨["a", "b"], ["out"]⟩
  else if n = "Not" then some ⟨["in"], ["out"]⟩
  else if n = "And" then some ⟨["a", "b"], ["out"]⟩
  else if n = "Or" then some ⟨["a", "b"], ["out"]⟩
  else if n = "Xor" then some ⟨["a", "b"], ["out"]⟩
  else if n = "Mux" then some ⟨["a", "b", "sel"], ["out"]⟩
  else if n = "DMux" then some ⟨["in", "sel"], ["a", "b"]⟩
  else if n = "Not16" then some ⟨["in"], ["out"]⟩
  else if n = "And16" then some ⟨["a", "b"], ["out"]⟩
  else if n = "Or16" then some ⟨["a", "b"], ["out"]⟩
  else if n = "Mux16" then some ⟨["a", "b", "sel"], ["out"]⟩
  else if n = "Or8Way" then some ⟨["in"], ["out"]⟩
  else if n = "Mux4Way16" then some ⟨["a", "b", "c", "d", "sel"], ["out"]⟩
  else if n = "Mux8Way16" then
    some ⟨["a", "b", "c", "d", "e", "f", "g", "h", "sel"], ["out"]⟩
  else if n = "DMux4Way" then some ⟨["in", "sel"], ["a", "b", "c", "d"]⟩
  else if n = "DMux8Way" then
    some ⟨["in", "sel"], ["a", "b", "c", "d", "e", "f", "g", "h"]⟩
  else if n = "HalfAdder" then some ⟨["a", "b"], ["sum", "carry"]⟩
  else if n = "Halfadder" then some ⟨["a", "b"], ["sum", "carry"]⟩
  else if n = "FullAdder" then some ⟨["a", "b", "c"], ["sum", "carry"]⟩
  else if n = "Add16" then some ⟨["a", "b"], ["out"]⟩
  else if n = "Inc16" then some ⟨["in"], ["out"]⟩
  else if n = "ALU" then
    some ⟨["x", "y", "zx", "nx", "zy", "ny", "f", "no"], ["out", "zr", "ng"]⟩
  else if n = "DFF" then some ⟨["in"], ["out"]⟩
  else if n = "Bit" then some ⟨["in", "load"], ["out"]⟩
  else if n = "Register" then some ⟨["in", "load"], ["out"]⟩
  else if n = "RAM8" then some ⟨["in", "load", "address"], ["out"]⟩
  else if n = "RAM64" then some ⟨["in", "load", "address"], ["out"]⟩
  else if n = "RAM512" then some ⟨["in", "load", "address"], ["out"]⟩
  else if n = "RAM4K" then some ⟨["in", "load", "address"], ["out"]⟩
  else if n = "RAM16K" then some ⟨["in", "load", "address"], ["out"]⟩
  else if n = "PC" then some ⟨["in", "load", "inc", "reset"], ["out"]⟩
  else none

/-- `is_valid_chip`. -/
def isValidChip (n : String) : Bool := (getChipSpec n).isSome

end HackChipAPI

/-! ## Name Normalizer (`_normalize_chip_name`) -/

/-- The `name_map` alias table; `some none` is the explicit "removed"
marker (Python `None` value), `none` means absent from the table. -/
def nameMapLookup (n : String) : Option (Option String) :=
  if n = "NAND" then some (some "Nand")
  else if n = "NOT" then some (some "Not")
  else if n = "AND" then some (some "And")
  else if n = "OR" then some (some "Or")
  else if n = "XOR" then some (some "Xor")
  else if n = "MUX" then some (some "Mux")
  else if n = "DMUX" then some (some "DMux")
  else if n = "8-1BIT" then some none
  else if n = "1-8BIT" then some none
  else if n = "Splitter8" then some none
  else if n = "Bus8" then some none
  else none

/-- The textual preprocessing of `_normalize_chip_name`: title-case-join
on internal whitespace, then strip `-` and `_`. -/
def processedName (name : String) : String :=
  let name1 :=
    if name.data.any (fun c => c = ' ') then
      joinSep "" ((splitWS name).map pyCapitalize)
    else name
  removeChar '_' (removeChar '-' name1)

/-- `_normalize_chip_name`: returns the normalized name (`none` = removed,
Python `None`) together with the warnings this call appends. -/
def normalizeChipName (name : String) : Option String × List String :=
  match nameMapLookup (processedName name) with
  | some none =>
      (none,
       ["WARNING: Chip \x27" ++ processedName name ++ "\x27 nao existe no Hack chip-set. Sera ignorado."])
  | some (some m) =>
      (some m,
       if HackChipAPI.isValidChip m then []
       else ["WARNING: Chip \x27" ++ m ++ "\x27 nao encontrado na API do Hack chip-set."])
  | none =>
      (some (processedName name),
       if HackChipAPI.isValidChip (processedName name) then []
       else ["WARNING: Chip \x27" ++ processedName name ++ "\x27 nao encontrado na API do Hack chip-set."])

/-! ## Pin Name Resolver (`_infer_pin_names` / `_infer_generic_pin_names`) -/

/-- Small association-list lookup, keyed by pin id (`dict.get(pid, …)`). -/
def assocFindNat : List (Nat × String) → Nat → Option String
  | [], _ => none
  | e :: rest, k => if e.1 = k then some e.2 else assocFindNat rest k

/-- Catalog-driven positional naming: pin at index `idx` gets the
catalog's declared name when `idx` is in range, else `<pfx><idx>`. -/
def assignNames (declared : List String) (pfx : String) : List Nat → Nat → List (Nat × String)
  | [], _ => []
  | pid :: rest, idx =>
      (pid, declared.getD idx (pfx ++ toString idx)) :: assignNames declared pfx rest (idx + 1)

/-- `_infer_generic_pin_names` naming: `pfx` for index 0, `<pfx><idx>`
afterwards. -/
def genericNames (pfx : String) : List Nat → Nat → List (Nat × String)
  | [], _ => []
  | pid :: rest, idx =>
      (pid, if idx > 0 then pfx ++ toString idx else pfx) :: genericNames pfx rest (idx + 1)

/-- The arity-overflow warning text appended by `_infer_pin_names`. -/
def arityMsg (c : SubChip) (side : String) (found expected : Nat) : String :=
  "WARNING: " ++ c.name ++ " (ID " ++ toString c.id ++ "): Tem " ++ toString found
    ++ " " ++ side ++ ", mas API espera " ++ toString expected

/-- What `_infer_pin_names` computes for one component: the two pin-name
maps plus the warnings appended while processing it. -/
structure InferResult where
  inNames : List (Nat × String)
  outNames : List (Nat × String)
  warns : List String

/-- `_infer_pin_names` for a single component (it is called once per
component during `__init__`, after the wire buckets are built). -/
def inferForComp (g : Graph) (c : SubChip) : InferResult :=
  let norm := normalizeChipName c.name
  match norm.1 with
  | none => ⟨[], [], norm.2⟩
  | some nm =>
    match HackChipAPI.getChipSpec nm with
    | none =>
        ⟨genericNames "in" (inputPinIdsInOrder g c.id) 0,
         genericNames "out" (outputPinIdsInOrder g c.id) 0,
         norm.2⟩
    | some spec =>
        let inIds := inputPinIdsInOrder g c.id
        let wIn :=
          if inIds.length > spec.inputs.length then
            [arityMsg c "inputs" inIds.length spec.inputs.length]
          else []
        let inNames := assignNames spec.inputs "in" inIds 0
        if c.outputPinIds.isEmpty then
          let outIds := outputPinIdsInOrder g c.id
          let wOut :=
            if outIds.length > spec.outputs.length then
              [arityMsg c "outputs" outIds.length spec.outputs.length]
            else []
          ⟨inNames, assignNames spec.outputs "out" outIds 0, norm.2 ++ wIn ++ wOut⟩
        else
          ⟨inNames, assignNames spec.outputs "out" c.outputPinIds 0, norm.2 ++ wIn⟩

/-! ## Wire Identity Resolver: converter state and
`_get_or_create_wire_name` / `_get_wire_source_name` -/

/-- The mutable converter state threaded through one lowering pass:
`wire_counter`, `wire_name_map` (association list in insertion order),
and the accumulated `warnings`. -/
structure ConvState where
  wireCounter : Nat
  wireNameMap : List ((Nat × Nat) × String)
  warnings : List String
deriving DecidableEq

/-- The fresh state a new `FixedConverter` starts from. -/
def initConvState : ConvState := ⟨0, [], []⟩

/-- First-match association lookup on the wire-name map. -/
def assocFind : List ((Nat × Nat) × String) → (Nat × Nat) → Option String
  | [], _ => none
  | e :: rest, k => if e.1 = k then some e.2 else assocFind rest k

/-- `_get_or_create_wire_name`: look up `(comp_id, pin_id)`; if absent,
bump the counter and store `w<counter>`. -/
def getOrCreateWireName (compId pinId : Nat) (s : ConvState) : String × ConvState :=
  match assocFind s.wireNameMap (compId, pinId) with
  | some n => (n, s)
  | none =>
      let c := s.wireCounter + 1
      let n := "w" ++ toString c
      (n, { s with wireCounter := c, wireNameMap := s.wireNameMap ++ [((compId, pinId), n)] })

/-- The duplicate-name disambiguation performed inside
`_get_wire_source_name` for a top-level input pin: lowercase the name,
and when several registered input pins share the same raw name, suffix
the pin's rank (if positive) in ascending-id order. -/
def disambigName (g : Graph) (pin : Pin) : String :=
  let name := strLower pin.name
  let sameNamePins := (pinVals g.inputPins).filter (fun p => p.name == pin.name)
  if sameNamePins.length > 1 then
    let pids := List.insertionSort (fun a b => a ≤ b) (sameNamePins.map Pin.id)
    let idx := pids.findIdx (fun x => x == pin.id)
    if idx > 0 then name ++ toString idx else name
  else name

/-- `_get_wire_source_name`: resolve the textual expression for a wire's
source endpoint.  (`owner in self.input_pins` is modelled by the lookup
returning `some`; the two coincide for dict emulation.) -/
def getWireSourceName (g : Graph) (w : Wire) (s : ConvState) : String × ConvState :=
  match pinLast g.inputPins w.sourceOwnerId with
  | some pin =>
      let name := disambigName g pin
      if pin.bitCount > 1 ∧ w.sourcePinId < pin.bitCount then
        (name ++ "[" ++ toString w.sourcePinId ++ "]", s)
      else (name, s)
  | none =>
      if compContains g w.sourceOwnerId then
        getOrCreateWireName w.sourceOwnerId w.sourcePinId s
      else ("unknown", s)

/-- Resolve a list of wires in sequence, threading the state (this is the
shape in which `convert` consumes `_get_wire_source_name`). -/
def resolveList (g : Graph) : List Wire → ConvState → List String × ConvState
  | [], s => ([], s)
  | w :: ws, s =>
      let r := getWireSourceName g w s
      let rest := resolveList g ws r.2
      (r.1 :: rest.1, rest.2)

/-! ## Signature Builder (`_generate_hdl_signature`) -/

/-- Lookup in the `seen_names` occurrence table. -/
def assocFindStr : List (String × Nat) → String → Option Nat
  | [], _ => none
  | e :: rest, k => if e.1 = k then some e.2 else assocFindStr rest k

/-- In-place update of the `seen_names` occurrence table
(`seen_names[name] = v`, preserving dict position). -/
def assocSetStr : List (String × Nat) → String → Nat → List (String × Nat)
  | [], k, v => [(k, v)]
  | e :: rest, k, v => if e.1 = k then (k, v) :: rest else e :: assocSetStr rest k v

/-- One step of the duplicate-input handling in
`_generate_hdl_signature`: bump the count and suffix `count - 1` on a
repeat, else register the name with count 1. -/
def disambigStep (seen : List (String × Nat)) (lname : String) : String × List (String × Nat) :=
  match assocFindStr seen lname with
  | some c => (lname ++ toString c, assocSetStr seen lname (c + 1))
  | none => (lname, seen ++ [(lname, 1)])

/-- The disambiguated (pre-bus-suffix) input names emitted by the
signature builder, in registration order. -/
def sigDisambigNames : List Pin → List (String × Nat) → List String
  | [], _ => []
  | p :: rest, seen =>
      let r := disambigStep seen (strLower p.name)
      r.1 :: sigDisambigNames rest r.2

/-- `_generate_hdl_signature`: the `IN` and `OUT` signature strings. -/
def generateHdlSignature (g : Graph) : String × String :=
  let pins := pinVals g.inputPins
  let dnames := sigDisambigNames pins []
  let inParts :=
    (pins.zip dnames).map (fun pd =>
      if pd.1.bitCount > 1 then pd.2 ++ "[" ++ toString pd.1.bitCount ++ "]" else pd.2)
  let outParts :=
    (pinVals g.outputPins).map (fun p =>
      let nm := removeChar ' ' (strLower p.name)
      if p.bitCount > 1 then nm ++ "[" ++ toString p.bitCount ++ "]" else nm)
  (joinSep ", " inParts, joinSep ", " outParts)

/-! ## Lowering Driver (`convert`) -/

/-- The input-connection loop of `convert`: for each connected input pin
id (first-seen order), resolve the first wire of its bucket and emit
`<param>=<source>`.  An empty bucket is skipped (`if wires:`), though
bucket keys only exist for non-empty buckets. -/
def buildInputConns (g : Graph) (c : SubChip) (inNames : List (Nat × String)) :
    List Nat → ConvState → List String × ConvState
  | [], s => ([], s)
  | pid :: rest, s =>
      match compInputWires g c.id pid with
      | [] => buildInputConns g c inNames rest s
      | w :: _ =>
          let r := getWireSourceName g w s
          let param := (assocFindNat inNames pid).getD ("in" ++ toString pid)
          let restR := buildInputConns g c inNames rest r.2
          ((param ++ "=" ++ r.1) :: restR.1, restR.2)

/-- The right-hand-side value for one connected output pin of an
instance, mirroring the `connects_to_output` block of `convert`.
`chipName` is `self.chip_name` — the normalized name of the *enclosing*
module, whose catalog entry (not the instance's) decides the branch. -/
def outputWireName (g : Graph) (chipName : Option String) (cid pid : Nat)
    (bucket : List Wire) (s : ConvState) : String × ConvState :=
  let connectsToOutput := bucket.any (fun w => pinContains g.outputPins w.targetOwnerId)
  if connectsToOutput then
    let chipSpec := chipName.bind HackChipAPI.getChipSpec
    let outputPin :=
      (bucket.find? (fun w => pinContains g.outputPins w.targetOwnerId)).bind
        (fun w => pinLast g.outputPins w.targetOwnerId)
    match chipSpec, outputPin with
    | some spec, some op =>
        let idx := (pinVals g.outputPins).findIdx (fun p => p == op)
        if idx < spec.outputs.length then (spec.outputs.getD idx "", s)
        else getOrCreateWireName cid pid s
    | none, some op => (removeChar ' ' (strLower op.name), s)
    | _, none => getOrCreateWireName cid pid s
  else getOrCreateWireName cid pid s

/-- The output-connection loop of `convert`: iterate the ordered output
pin ids, skipping pins with no outgoing wires
(`if pin_id not in comp.output_wires: continue`). -/
def buildOutputConns (g : Graph) (c : SubChip) (chipName : Option String)
    (outNames : List (Nat × String)) : List Nat → ConvState → List String × ConvState
  | [], s => ([], s)
  | pid :: rest, s =>
      match compOutputWires g c.id pid with
      | [] => buildOutputConns g c chipName outNames rest s
      | w :: bs =>
          let r := outputWireName g chipName c.id pid (w :: bs) s
          let param := (assocFindNat outNames pid).getD ("out" ++ toString pid)
          let restR := buildOutputConns g c chipName outNames rest r.2
          ((param ++ "=" ++ r.1) :: restR.1, restR.2)

/-- One iteration of `convert`'s component loop: the emitted line for
this instance plus the updated state (the loop re-calls
`_normalize_chip_name`, re-appending its warnings). -/
def convertComp (g : Graph) (chipName : Option String) (c : SubChip) (s : ConvState) :
    String × ConvState :=
  let norm := normalizeChipName c.name
  let s0 : ConvState := { s with warnings := s.warnings ++ norm.2 }
  match norm.1 with
  | none => ("    // SKIPPED: " ++ c.name ++ " (não existe no Hack chip-set)", s0)
  | some nm =>
      let info := inferForComp g c
      let rIn := buildInputConns g c info.inNames (inputPinIdsInOrder g c.id) s0
      let orderedOut :=
        if c.outputPinIds.isEmpty then outputPinIdsInOrder g c.id else c.outputPinIds
      let rOut := buildOutputConns g c chipName info.outNames orderedOut rIn.2
      let conns := rIn.1 ++ rOut.1
      if conns.isEmpty then
        ("    // WARNING: " ++ nm ++ " has no connections", rOut.2)
      else
        ("    " ++ nm ++ "(" ++ joinSep ", " conns ++ ");", rOut.2)

/-- `convert`'s component loop over the registry, in dict order. -/
def convertComps (g : Graph) (chipName : Option String) :
    List SubChip → ConvState → List String × ConvState
  | [], s => ([], s)
  | c :: rest, s =>
      let r := convertComp g chipName c s
      let restR := convertComps g chipName rest r.2
      (r.1 :: restR.1, restR.2)

/-- Python `f"{x}"` on an optional string (`None` prints as `"None"`). -/
def pyShowOpt : Option String → String
  | none => "None"
  | some s => s

/-- `self.chip_name` and the warnings appended during `__init__`
(normalizing the module name, then `_infer_pin_names` over the
component registry). -/
def initConverter (g : Graph) : Option String × List String :=
  let r := normalizeChipName g.name
  (r.1, r.2 ++ (compVals g).foldl (fun acc c => acc ++ (inferForComp g c).warns) [])

/-- `convert`: header lines, signature lines, `PARTS:` body, closing
brace — as a list of output lines (the Python result is their
`"\n"`-join), threading the converter state. -/
def convertLines (g : Graph) (s : ConvState) : List String × ConvState :=
  let sig := generateHdlSignature g
  let chipName := (initConverter g).1
  let header :=
    ["// Converted from Digital Logic Sim (Sebastian Lague)",
     "// Original chip: " ++ g.name,
     "// Fixed converter - compliant with Nand2tetris HDL specification",
     "",
     "CHIP " ++ pyShowOpt chipName ++ " \x7b",
     "    IN " ++ sig.1 ++ ";",
     "    OUT " ++ sig.2 ++ ";",
     "",
     "    PARTS:"]
  let body := convertComps g chipName (compVals g) s
  (header ++ body.1 ++ ["\x7d"], body.2)

/-- One full lowering pass from an explicit starting state:
construction (`__init__`, which appends its warnings) followed by
`convert()`. -/
def fullPassFrom (g : Graph) (s : ConvState) : List String × ConvState :=
  let s0 : ConvState := { s with warnings := s.warnings ++ (initConverter g).2 }
  convertLines g s0

/-- One full lowering pass over a fresh converter: the emitted module
lines and the final state (whose `warnings` field is the diagnostic
sequence). -/
def fullPass (g : Graph) : List String × ConvState :=
  fullPassFrom g initConvState

/-! ## Lemmas about the wire-identifier allocator -/

/-- The source endpoint key used by the identifier table. -/
def sourceKey (w : Wire) : Nat × Nat := (w.sourceOwnerId, w.sourcePinId)

/-- A wire whose source resolves through the component branch of
`_get_wire_source_name`. -/
def isComponentSource (g : Graph) (w : Wire) : Bool :=
  (pinLast g.inputPins w.sourceOwnerId).isNone && compContains g w.sourceOwnerId

/-- The identifier table is well-formed: its stored names are exactly
`w1, …, w<counter>` in allocation order. -/
def countersOk (s : ConvState) : Prop :=
  s.wireNameMap.map Prod.snd = (List.range s.wireCounter).map (fun i => "w" ++ toString (i + 1))

/-- The identifier table never holds two entries for one key. -/
def keysNodup (s : ConvState) : Prop :=
  (s.wireNameMap.map Prod.fst).Nodup

theorem assocFind_append (l1 l2 : List ((Nat × Nat) × String)) (k : Nat × Nat) :
    assocFind (l1 ++ l2) k = ((assocFind l1 k).elim (assocFind l2 k) some) := by
  induction l1 with
  | nil => simp [assocFind]
  | cons e rest ih =>
      simp only [List.cons_append, assocFind]
      split <;> simp [ih]

theorem assocFind_none_not_mem (l : List ((Nat × Nat) × String)) (k : Nat × Nat)
    (h : assocFind l k = none) : k ∉ l.map Prod.fst := by
  induction l with
  | nil => simp
  | cons e rest ih =>
      simp only [assocFind] at h
      split at h
      · exact absurd h (by simp)
      · simp only [List.map_cons, List.mem_cons]
        rintro (h1 | h2)
        · exact absurd h1.symm (by assumption)
        · exact ih h h2

theorem filterKey_nil_of_not_mem (l : List ((Nat × Nat) × String)) (k : Nat × Nat)
    (h : k ∉ l.map Prod.fst) : l.filter (fun e => e.1 == k) = [] := by
  induction l with
  | nil => rfl
  | cons e rest ih =>
      simp only [List.map_cons, List.mem_cons, not_or] at h
      simp only [List.filter_cons]
      rw [if_neg (by simpa using fun he => h.1 he.symm), ih h.2]

theorem filterKey_len_one (l : List ((Nat × Nat) × String)) (k : Nat × Nat) (v : String)
    (hn : (l.map Prod.fst).Nodup) (h : assocFind l k = some v) :
    (l.filter (fun e => e.1 == k)).length = 1 := by
  induction l with
  | nil => simp [assocFind] at h
  | cons e rest ih =>
      simp only [List.map_cons, List.nodup_cons] at hn
      simp only [assocFind] at h
      simp only [List.filter_cons]
      split at h
      · have hek : e.1 = k := by assumption
        rw [if_pos (by simpa using hek)]
        have : rest.filter (fun e => e.1 == k) = [] :=
          filterKey_nil_of_not_mem rest k (by rw [← hek]; exact hn.1)
        simp [this]
      · have hek : ¬ e.1 = k := by assumption
        rw [if_neg (by simpa using hek)]
        exact ih hn.2 h

theorem getOrCreate_lookup_self (c p : Nat) (s : ConvState) :
    assocFind ((getOrCreateWireName c p s).2).wireNameMap (c, p) =
      some (getOrCreateWireName c p s).1 := by
  unfold getOrCreateWireName
  cases h : assocFind s.wireNameMap (c, p) with
  | some n => simpa using h
  | none => simp [assocFind_append, h, assocFind]

theorem getOrCreate_mono (c p : Nat) (s : ConvState) (k : Nat × Nat) (v : String)
    (h : assocFind s.wireNameMap k = some v) :
    assocFind ((getOrCreateWireName c p s).2).wireNameMap k = some v := by
  unfold getOrCreateWireName
  cases hf : assocFind s.wireNameMap (c, p) with
  | some n => simpa using h
  | none => simp [assocFind_append, h]

theorem getOrCreate_warnings (c p : Nat) (s : ConvState) :
    ((getOrCreateWireName c p s).2).warnings = s.warnings := by
  unfold getOrCreateWireName
  cases hf : assocFind s.wireNameMap (c, p) <;> simp

theorem getOrCreate_countersOk (c p : Nat) (s : ConvState) (h : countersOk s) :
    countersOk ((getOrCreateWireName c p s).2) := by
  unfold getOrCreateWireName
  cases hf : assocFind s.wireNameMap (c, p) with
  | some n => simpa using h
  | none =>
      unfold countersOk at h ⊢
      simp only [List.map_append, h, List.range_succ, List.map_cons, List.map_nil]

theorem getOrCreate_keysNodup (c p : Nat) (s : ConvState) (h : keysNodup s) :
    keysNodup ((getOrCreateWireName c p s).2) := by
  unfold getOrCreateWireName
  cases hf : assocFind s.wireNameMap (c, p) with
  | some n => simpa using h
  | none =>
      unfold keysNodup at h ⊢
      simp only [List.map_append, List.map_cons, List.map_nil]
      rw [List.nodup_append]
      exact ⟨h, List.nodup_singleton _,
        fun a ha hb => by
          simp only [List.mem_singleton] at hb
          exact assocFind_none_not_mem _ _ hf (hb ▸ ha)⟩

theorem getWireSourceName_comp (g : Graph) (w : Wire) (s : ConvState)
    (h : isComponentSource g w = true) :
    getWireSourceName g w s = getOrCreateWireName w.sourceOwnerId w.sourcePinId s := by
  unfold isComponentSource at h
  rw [Bool.and_eq_true] at h
  unfold getWireSourceName
  rw [Option.isNone_iff_eq_none.mp h.1, h.2]
  simp

/-- `_get_wire_source_name` either leaves the state untouched or is one
allocator call on the wire's source key. -/
theorem getWireSourceName_state (g : Graph) (w : Wire) (s : ConvState) :
    (getWireSourceName g w s).2 = s ∨
      getWireSourceName g w s = getOrCreateWireName w.sourceOwnerId w.sourcePinId s := by
  unfold getWireSourceName
  split
  · dsimp only
    split
    · left; rfl
    · left; rfl
  · split
    · right; rfl
    · left; rfl

theorem getWireSourceName_mono (g : Graph) (w : Wire) (s : ConvState) (k : Nat × Nat) (v : String)
    (h : assocFind s.wireNameMap k = some v) :
    assocFind ((getWireSourceName g w s).2).wireNameMap k = some v := by
  rcases getWireSourceName_state g w s with hs | hs
  · rw [hs]; exact h
  · rw [hs]; exact getOrCreate_mono _ _ s k v h

theorem getWireSourceName_countersOk (g : Graph) (w : Wire) (s : ConvState)
    (h : countersOk s) : countersOk ((getWireSourceName g w s).2) := by
  rcases getWireSourceName_state g w s with hs | hs
  · rw [hs]; exact h
  · rw [hs]; exact getOrCreate_countersOk _ _ s h

theorem getWireSourceName_keysNodup (g : Graph) (w : Wire) (s : ConvState)
    (h : keysNodup s) : keysNodup ((getWireSourceName g w s).2) := by
  rcases getWireSourceName_state g w s with hs | hs
  · rw [hs]; exact h
  · rw [hs]; exact getOrCreate_keysNodup _ _ s h

theorem resolveList_mono (g : Graph) (ws : List Wire) (s : ConvState) (k : Nat × Nat) (v : String)
    (h : assocFind s.wireNameMap k = some v) :
    assocFind ((resolveList g ws s).2).wireNameMap k = some v := by
  induction ws generalizing s with
  | nil => simpa [resolveList] using h
  | cons w rest ih =>
      simp only [resolveList]
      exact ih _ (getWireSourceName_mono g w s k v h)

theorem resolveList_countersOk (g : Graph) (ws : List Wire) (s : ConvState)
    (h : countersOk s) : countersOk ((resolveList g ws s).2) := by
  induction ws generalizing s with
  | nil => simpa [resolveList] using h
  | cons w rest ih =>
      simp only [resolveList]
      exact ih _ (getWireSourceName_countersOk g w s h)

theorem resolveList_keysNodup (g : Graph) (ws : List Wire) (s : ConvState)
    (h : keysNodup s) : keysNodup ((resolveList g ws s).2) := by
  induction ws generalizing s with
  | nil => simpa [resolveList] using h
  | cons w rest ih =>
      simp only [resolveList]
      exact ih _ (getWireSourceName_keysNodup g w s h)

theorem resolveList_length (g : Graph) (ws : List Wire) (s : ConvState) :
    ((resolveList g ws s).1).length = ws.length := by
  induction ws generalizing s with
  | nil => simp [resolveList]
  | cons w rest ih => simp [resolveList, ih]

theorem resolveList_append (g : Graph) (l1 l2 : List Wire) (s : ConvState) :
    resolveList g (l1 ++ l2) s =
      ((resolveList g l1 s).1 ++ (resolveList g l2 (resolveList g l1 s).2).1,
       (resolveList g l2 (resolveList g l1 s).2).2) := by
  induction l1 generalizing s with
  | nil => simp [resolveList]
  | cons w rest ih => simp [resolveList, ih]

theorem resolveList_get (g : Graph) (ws : List Wire) (s : ConvState) (i : Nat) (w : Wire)
    (hg : ws.get? i = some w) (hc : isComponentSource g w = true) :
    ∃ v, (resolveList g ws s).1.get? i = some v ∧
      assocFind ((resolveList g ws s).2).wireNameMap (sourceKey w) = some v := by
  induction ws generalizing s i with
  | nil => simp at hg
  | cons w0 rest ih =>
      cases i with
      | zero =>
          simp only [List.get?] at hg
          cases hg
          simp only [resolveList]
          refine ⟨(getWireSourceName g w s).1, by simp, ?_⟩
          have h1 : assocFind ((getWireSourceName g w s).2).wireNameMap (sourceKey w) =
              some (getWireSourceName g w s).1 := by
            rw [getWireSourceName_comp g w s hc]
            exact getOrCreate_lookup_self _ _ s
          exact resolveList_mono g rest _ _ _ h1
      | succ n =>
          simp only [List.get?] at hg
          simp only [resolveList]
          obtain ⟨v, hv1, hv2⟩ := ih _ n hg
          exact ⟨v, by simpa using hv1, hv2⟩

/-! ## Claim C1: fan-out identity of the wire-identifier allocator -/

/-- Example scenario for C1: one component (id 1) whose output pin 0
fans out over two wires. -/
def exC1g : Graph := ⟨"Not", [], [], [⟨"NOT", 1, []⟩], []⟩

/-- First fan-out wire of the C1 example. -/
def exC1w1 : Wire := ⟨0, 1, 0, 9⟩

/-- Second fan-out wire of the C1 example. -/
def exC1w2 : Wire := ⟨0, 1, 0, 8⟩

/-- The C1 example wire list. -/
def exC1ws : List Wire := [exC1w1, exC1w2]

/-- C1: fan-out identity.  For any two wires of a lowering pass whose
sources are the same component output pin, the two resolved wire
expressions are identical (and present); the identifier table holds
exactly one entry for that `(instanceId, pinId)` key; the identifiers
stored are exactly `w1, w2, …` — the shared counter starts at 1 and
increments by one per allocation; and an identifier assigned at any
earlier point of the pass is never reallocated: it survives unchanged to
the final state. -/
theorem fanout_identity (g : Graph) (ws : List Wire) (i j : Nat) (wi wj : Wire)
    (hgi : ws.get? i = some wi) (hgj : ws.get? j = some wj)
    (hci : isComponentSource g wi = true) (hcj : isComponentSource g wj = true)
    (hkey : sourceKey wi = sourceKey wj) :
    ((resolveList g ws initConvState).1.get? i = (resolveList g ws initConvState).1.get? j
      ∧ (resolveList g ws initConvState).1.get? i ≠ none)
    ∧ (((resolveList g ws initConvState).2.wireNameMap.filter
          (fun e => e.1 == sourceKey wi)).length = 1)
    ∧ countersOk ((resolveList g ws initConvState).2)
    ∧ (∀ pre suf k v, ws = pre ++ suf →
        assocFind ((resolveList g pre initConvState).2).wireNameMap k = some v →
        assocFind ((resolveList g ws initConvState).2).wireNameMap k = some v) := by
  obtain ⟨vi, hvi1, hvi2⟩ := resolveList_get g ws initConvState i wi hgi hci
  obtain ⟨vj, hvj1, hvj2⟩ := resolveList_get g ws initConvState j wj hgj hcj
  rw [← hkey] at hvj2
  have hvij : vi = vj := by
    have := hvi2.symm.trans hvj2
    simpa using this
  have hnodup : keysNodup ((resolveList g ws initConvState).2) :=
    resolveList_keysNodup g ws initConvState (by simp [keysNodup, initConvState])
  refine ⟨⟨by rw [hvi1, hvj1, hvij], by rw [hvi1]; simp⟩, ?_, ?_, ?_⟩
  · exact filterKey_len_one _ _ vi hnodup hvi2
  · exact resolveList_countersOk g ws initConvState
      (by simp [countersOk, initConvState])
  · intro pre suf k v hws hpre
    subst hws
    have h2 := congrArg Prod.snd (resolveList_append g pre suf initConvState)
    simp only at h2
    rw [h2]
    exact resolveList_mono g suf _ k v hpre

/-- Closed instance of `fanout_identity` at the two-wire fan-out
example. -/
theorem fanout_identity_witness :
    ((resolveList exC1g exC1ws initConvState).1.get? 0 = (resolveList exC1g exC1ws initConvState).1.get? 1
      ∧ (resolveList exC1g exC1ws initConvState).1.get? 0 ≠ none)
    ∧ (((resolveList exC1g exC1ws initConvState).2.wireNameMap.filter
          (fun e => e.1 == sourceKey exC1w1)).length = 1)
    ∧ countersOk ((resolveList exC1g exC1ws initConvState).2)
    ∧ (∀ pre suf k v, exC1ws = pre ++ suf →
        assocFind ((resolveList exC1g pre initConvState).2).wireNameMap k = some v →
        assocFind ((resolveList exC1g exC1ws initConvState).2).wireNameMap k = some v) :=
  fanout_identity exC1g exC1ws 0 1 exC1w1 exC1w2 (by decide) (by decide)
    (by decide) (by decide) (by decide)

/-! ## Claim C4: bit-index rule for top-level input sources -/

/-- Reduction of `_get_wire_source_name` on the top-level-input branch. -/
theorem getWireSourceName_input (g : Graph) (w : Wire) (s : ConvState) (pin : Pin)
    (hpin : pinLast g.inputPins w.sourceOwnerId = some pin) :
    getWireSourceName g w s =
      (if pin.bitCount > 1 ∧ w.sourcePinId < pin.bitCount then
        (disambigName g pin ++ "[" ++ toString w.sourcePinId ++ "]", s)
       else (disambigName g pin, s)) := by
  unfold getWireSourceName
  rw [hpin]

/-- Example graph for C4: one 8-bit top-level input pin. -/
def exC4g : Graph := ⟨"Not", [⟨0, "A", 8⟩], [], [], []⟩

/-- Example wire for C4: bit 3 of the 8-bit input pin. -/
def exC4w : Wire := ⟨3, 0, 0, 50⟩

/-- C4: bit-index rule.  For a wire whose source endpoint resolves to a
registered top-level input pin, the resolved expression carries the
`[<pinId>]` suffix exactly when `bitWidth > 1` and `sourcePinId <
bitWidth`, and is the bare disambiguated name otherwise; the suffixed
form is never equal to the bare form. -/
theorem bit_index_rule (g : Graph) (w : Wire) (pin : Pin) (s : ConvState)
    (hpin : pinLast g.inputPins w.sourceOwnerId = some pin) :
    ((pin.bitCount > 1 ∧ w.sourcePinId < pin.bitCount →
        (getWireSourceName g w s).1 =
          disambigName g pin ++ "[" ++ toString w.sourcePinId ++ "]")
      ∧ (¬(pin.bitCount > 1 ∧ w.sourcePinId < pin.bitCount) →
        (getWireSourceName g w s).1 = disambigName g pin))
    ∧ disambigName g pin ++ "[" ++ toString w.sourcePinId ++ "]" ≠ disambigName g pin := by
  refine ⟨⟨?_, ?_⟩, ?_⟩
  · intro h
    rw [getWireSourceName_input g w s pin hpin, if_pos h]
  · intro h
    rw [getWireSourceName_input g w s pin hpin, if_neg h]
  · intro h
    have hl := congrArg String.length h
    simp only [String.length_append] at hl
    have h1 : ("[" : String).length = 1 := rfl
    have h2 : ("]" : String).length = 1 := rfl
    omega

/-- Closed instance of `bit_index_rule`: an 8-bit pin with
`sourcePinId = 3` resolves to `a[3]`; the guard also shows the
bare-name branch. -/
theorem bit_index_rule_witness :
    ((Pin.bitCount ⟨0, "A", 8⟩ > 1 ∧ Wire.sourcePinId exC4w < Pin.bitCount ⟨0, "A", 8⟩ →
        (getWireSourceName exC4g exC4w initConvState).1 =
          disambigName exC4g ⟨0, "A", 8⟩ ++ "[" ++ toString (Wire.sourcePinId exC4w) ++ "]")
      ∧ (¬(Pin.bitCount ⟨0, "A", 8⟩ > 1 ∧ Wire.sourcePinId exC4w < Pin.bitCount ⟨0, "A", 8⟩) →
        (getWireSourceName exC4g exC4w initConvState).1 = disambigName exC4g ⟨0, "A", 8⟩))
    ∧ disambigName exC4g ⟨0, "A", 8⟩ ++ "[" ++ toString (Wire.sourcePinId exC4w) ++ "]" ≠
        disambigName exC4g ⟨0, "A", 8⟩ :=
  bit_index_rule exC4g exC4w ⟨0, "A", 8⟩ initConvState (by decide)

/-! ## Claim C8: unresolved wire-endpoint owners -/

/-- An owner id absent from a pin registry looks up to `none`. -/
theorem pinLast_none (ps : List Pin) (i : Nat) (h : pinContains ps i = false) :
    pinLast ps i = none := by
  unfold pinContains at h
  unfold pinLast
  have hf : ps.filter (fun p => p.id == i) = [] := by
    rw [List.filter_eq_nil_iff]
    intro p hp
    rw [List.any_eq_false] at h
    simpa using h p hp
  rw [hf]
  rfl

/-- Example graph for C8: registries populated, but the wire's source
owner id 9 appears in none of them. -/
def exG8 : Graph := ⟨"Not", [⟨1, "A", 1⟩], [⟨2, "O", 1⟩], [⟨"NOT", 3, []⟩], [⟨0, 9, 0, 3⟩]⟩

/-- The C8 wire with the unknown source owner. -/
def exW8 : Wire := ⟨0, 9, 0, 3⟩

/-- C8 counterexample: at a concrete wire whose source owner id is in
none of the three registries, the resolver does yield the `unknown`
marker but records no diagnostic (the state — warnings included — is
returned untouched), refuting the claim's "AND a diagnostic is
recorded". -/
theorem unresolved_owner_cex :
    (getWireSourceName exG8 exW8 initConvState).1 = "unknown"
    ∧ (getWireSourceName exG8 exW8 initConvState).2 = initConvState
    ∧ ¬ ((getWireSourceName exG8 exW8 initConvState).2).warnings.length >
        initConvState.warnings.length := by
  refine ⟨by decide, by decide, by decide⟩

/-- C8 amended: for every wire whose source endpoint owner id is
registered in none of the three registries, the wire's contribution is
the explicit `unknown` marker, NO diagnostic is recorded (the state is
unchanged), and the pass continues over the remaining wires — every
wire of the pass still produces exactly one resolved expression. -/
theorem unresolved_owner_amended (g : Graph) (w : Wire) (s : ConvState)
    (h1 : pinContains g.inputPins w.sourceOwnerId = false)
    (h2 : compContains g w.sourceOwnerId = false)
    (h3 : pinContains g.outputPins w.sourceOwnerId = false) :
    getWireSourceName g w s = ("unknown", s)
    ∧ ∀ ws : List Wire, ((resolveList g ws s).1).length = ws.length := by
  constructor
  · unfold getWireSourceName
    rw [pinLast_none _ _ h1, h2]
    simp
  · intro ws
    exact resolveList_length g ws s

/-- Closed instance of `unresolved_owner_amended` at the C8 example. -/
theorem unresolved_owner_amended_witness :
    getWireSourceName exG8 exW8 initConvState = ("unknown", initConvState)
    ∧ ∀ ws : List Wire, ((resolveList exG8 ws initConvState).1).length = ws.length :=
  unresolved_owner_amended exG8 exW8 initConvState (by decide) (by decide) (by decide)

/-! ## Claim C9: determinism of the lowering pass -/

/-- C9: determinism.  Two lowering passes over the same graph from two
fresh converter states produce identical module lines and an identical
diagnostic sequence.  (In this embedding the pass is a pure function of
the graph and the starting state, so determinism is inherited from
functional evaluation.) -/
theorem lowering_determinism (g : Graph) (s1 s2 : ConvState)
    (h1 : s1 = initConvState) (h2 : s2 = initConvState) :
    (fullPassFrom g s1).1 = (fullPassFrom g s2).1
      ∧ ((fullPassFrom g s1).2).warnings = ((fullPassFrom g s2).2).warnings := by
  subst h1
  subst h2
  exact ⟨rfl, rfl⟩

/-- Closed instance of `lowering_determinism` at a concrete graph. -/
theorem lowering_determinism_witness :
    (fullPassFrom exG8 initConvState).1 = (fullPassFrom exG8 initConvState).1
      ∧ ((fullPassFrom exG8 initConvState).2).warnings =
        ((fullPassFrom exG8 initConvState).2).warnings :=
  lowering_determinism exG8 initConvState initConvState rfl rfl

/-! ## Registry lemmas (dict emulation) -/

theorem dedupAux_mem (l : List Nat) (seen : List Nat) (x : Nat) :
    x ∈ dedupAux seen l ↔ x ∈ l ∧ x ∉ seen := by
  induction l generalizing seen with
  | nil => simp [dedupAux]
  | cons y ys ih =>
      simp only [dedupAux]
      split
      · rename_i hy
        rw [ih]
        simp only [List.mem_cons]
        constructor
        · rintro ⟨h1, h2⟩
          exact ⟨Or.inr h1, h2⟩
        · rintro ⟨h1 | h1, h2⟩
          · exact absurd (h1 ▸ hy) h2
          · exact ⟨h1, h2⟩
      · rename_i hy
        simp only [List.mem_cons, ih, List.mem_cons, not_or]
        constructor
        · rintro (h | ⟨h1, h2⟩)
          · exact ⟨Or.inl h, h ▸ hy⟩
          · exact ⟨Or.inr h1, h2.2⟩
        · rintro ⟨h1 | h1, h2⟩
          · exact Or.inl h1
          · by_cases hxy : x = y
            · exact Or.inl hxy
            · exact Or.inr ⟨h1, ⟨hxy, h2⟩⟩
  

theorem dedupAux_nodup (l : List Nat) (seen : List Nat) : (dedupAux seen l).Nodup := by
  induction l generalizing seen with
  | nil => simp [dedupAux]
  | cons y ys ih =>
      simp only [dedupAux]
      split
      · exact ih seen
      · rw [List.nodup_cons]
        refine ⟨fun hmem => ?_, ih (y :: seen)⟩
        rw [dedupAux_mem] at hmem
        exact hmem.2 (List.mem_cons_self y seen)

theorem dedupFirst_mem (l : List Nat) (x : Nat) : x ∈ dedupFirst l ↔ x ∈ l := by
  unfold dedupFirst
  rw [dedupAux_mem]
  simp

theorem dedupFirst_nodup (l : List Nat) : (dedupFirst l).Nodup := dedupAux_nodup l []

theorem pinLast_id (ps : List Pin) (i : Nat) (p : Pin) (h : pinLast ps i = some p) :
    p.id = i ∧ p ∈ ps := by
  unfold pinLast at h
  have hmem : p ∈ ps.filter (fun q => q.id == i) := by
    obtain ⟨hne, heq⟩ := List.mem_getLast?_eq_getLast (Option.mem_def.mpr h)
    exact heq ▸ List.getLast_mem hne
  rw [List.mem_filter] at hmem
  exact ⟨by simpa using hmem.2, hmem.1⟩

theorem pinLast_mem_pinIds (ps : List Pin) (i : Nat) (p : Pin) (h : pinLast ps i = some p) :
    i ∈ pinIds ps := by
  obtain ⟨hid, hmem⟩ := pinLast_id ps i p h
  unfold pinIds
  rw [dedupFirst_mem]
  exact List.mem_map.mpr ⟨p, hmem, hid⟩

theorem pinLast_mem_pinVals (ps : List Pin) (i : Nat) (p : Pin) (h : pinLast ps i = some p) :
    p ∈ pinVals ps := by
  unfold pinVals
  exact List.mem_filterMap.mpr ⟨i, pinLast_mem_pinIds ps i p h, h⟩

theorem pinLast_isSome_of_mem_pinIds (ps : List Pin) (i : Nat) (h : i ∈ pinIds ps) :
    (pinLast ps i).isSome := by
  unfold pinIds at h
  rw [dedupFirst_mem] at h
  obtain ⟨p, hp, hid⟩ := List.mem_map.mp h
  unfold pinLast
  rw [List.getLast?_isSome]
  intro hnil
  have : p ∈ ps.filter (fun q => q.id == i) :=
    List.mem_filter.mpr ⟨hp, by simpa using hid⟩
  rw [hnil] at this
  simp at this

theorem pinVals_map_id (ps : List Pin) : (pinVals ps).map Pin.id = pinIds ps := by
  unfold pinVals
  have : ∀ l : List Nat, (∀ i ∈ l, (pinLast ps i).isSome) →
      (l.filterMap (pinLast ps)).map Pin.id = l := by
    intro l
    induction l with
    | nil => intro _; rfl
    | cons i rest ih =>
        intro h
        obtain ⟨p, hp⟩ := Option.isSome_iff_exists.mp (h i (List.mem_cons_self i rest))
        simp only [List.filterMap_cons, hp, List.map_cons]
        rw [(pinLast_id ps i p hp).1, ih (fun j hj => h j (List.mem_cons_of_mem i hj))]
  exact this (pinIds ps) (fun i hi => pinLast_isSome_of_mem_pinIds ps i hi)

theorem pinVals_ids_nodup (ps : List Pin) : ((pinVals ps).map Pin.id).Nodup := by
  rw [pinVals_map_id]
  exact dedupFirst_nodup _

/-! ## Claim C3: duplicate-name disambiguation -/

/-- In a sorted duplicate-free list, the index of a member equals the
number of strictly smaller elements. -/
theorem findIdx_sorted (l : List Nat) (x : Nat)
    (hs : List.Sorted (fun a b => a ≤ b) l) (hn : l.Nodup) (hx : x ∈ l) :
    List.findIdx (fun v => v == x) l = (l.filter (fun v => decide (v < x))).length := by
  induction l with
  | nil => simp at hx
  | cons y ys ih =>
      rw [List.sorted_cons] at hs
      rw [List.nodup_cons] at hn
      by_cases hxy : y = x
      · subst hxy
        have h0 : List.findIdx (fun v => v == y) (y :: ys) = 0 := by
          rw [List.findIdx_cons]
          simp
        rw [h0]
        have hrest : ys.filter (fun v => decide (v < y)) = [] := by
          rw [List.filter_eq_nil_iff]
          intro a ha
          have h1 : y ≤ a := hs.1 a ha
          simp only [decide_eq_true_eq]
          omega
        simp [List.filter_cons, hrest]
      · have hxys : x ∈ ys := by
          rcases List.mem_cons.mp hx with h | h
          · exact absurd h.symm hxy
          · exact h
        have hylt : y < x := Nat.lt_of_le_of_ne (hs.1 x hxys) hxy
        rw [List.findIdx_cons]
        have hyx : (y == x) = false := by simp [hxy]
        rw [hyx]
        simp only [cond_false]
        rw [ih hs.2 hn.2 hxys]
        simp [List.filter_cons, hylt]

/-- Spec-words form (4.4 / amended C3) of the per-connection
disambiguated name: among registered input pins sharing the pin's raw
name, the bare lowercased name when no same-named pin has a smaller id,
else the name suffixed with the number of same-named pins with smaller
ids. -/
def specDisambigName (g : Graph) (pin : Pin) : String :=
  let lname := strLower pin.name
  let same := (pinVals g.inputPins).filter (fun p => p.name == pin.name)
  let rank := ((same.map Pin.id).filter (fun v => decide (v < pin.id))).length
  if same.length > 1 then
    (if rank > 0 then lname ++ toString rank else lname)
  else lname

/-- Spec-words form of the full per-connection source expression:
the disambiguated name plus the 4.3 bit-index rule. -/
def specWireSourceName (g : Graph) (w : Wire) (pin : Pin) : String :=
  if pin.bitCount > 1 ∧ w.sourcePinId < pin.bitCount then
    specDisambigName g pin ++ "[" ++ toString w.sourcePinId ++ "]"
  else specDisambigName g pin

/-- The code's sorted-index disambiguation coincides with the
smaller-id-count form, for a pin actually registered under its id. -/
theorem disambigName_spec (g : Graph) (i : Nat) (pin : Pin)
    (hpin : pinLast g.inputPins i = some pin) :
    disambigName g pin = specDisambigName g pin := by
  have hid : pin.id = i := (pinLast_id g.inputPins i pin hpin).1
  have hmemVals : pin ∈ pinVals g.inputPins := pinLast_mem_pinVals g.inputPins i pin hpin
  unfold disambigName specDisambigName
  set same := (pinVals g.inputPins).filter (fun p => p.name == pin.name) with hsame
  have hmemSame : pin ∈ same := by
    rw [hsame]
    exact List.mem_filter.mpr ⟨hmemVals, by simp⟩
  have hmemIds : pin.id ∈ same.map Pin.id := List.mem_map.mpr ⟨pin, hmemSame, rfl⟩
  have hnodup : (same.map Pin.id).Nodup := by
    have hsub : List.Sublist (same.map Pin.id) ((pinVals g.inputPins).map Pin.id) := by
      rw [hsame]
      exact (List.filter_sublist _).map Pin.id
    exact (pinVals_ids_nodup g.inputPins).sublist hsub
  have hperm := List.perm_insertionSort (fun a b => a ≤ b) (same.map Pin.id)
  have hIdx : List.findIdx (fun x => x == pin.id)
        (List.insertionSort (fun a b => a ≤ b) (same.map Pin.id)) =
      ((same.map Pin.id).filter (fun v => decide (v < pin.id))).length := by
    rw [findIdx_sorted _ pin.id
      (List.sorted_insertionSort (fun a b => a ≤ b) (same.map Pin.id))
      (hperm.nodup_iff.mpr hnodup) (hperm.mem_iff.mpr hmemIds)]
    exact (hperm.filter _).length_eq
  dsimp only
  rw [hIdx]

theorem assocFindStr_append (l1 l2 : List (String × Nat)) (k : String) :
    assocFindStr (l1 ++ l2) k = ((assocFindStr l1 k).elim (assocFindStr l2 k) some) := by
  induction l1 with
  | nil => simp [assocFindStr]
  | cons e rest ih =>
      simp only [List.cons_append, assocFindStr]
      split <;> simp [ih]

theorem assocFindStr_set_self (l : List (String × Nat)) (k : String) (v : Nat) :
    assocFindStr (assocSetStr l k v) k = some v := by
  induction l with
  | nil => simp [assocSetStr, assocFindStr]
  | cons e rest ih =>
      simp only [assocSetStr]
      split
      · simp [assocFindStr]
      · rename_i hne
        simp only [assocFindStr]
        rw [if_neg hne]
        exact ih

theorem assocFindStr_set_other (l : List (String × Nat)) (k : String) (v : Nat) (q : String)
    (h : q ≠ k) : assocFindStr (assocSetStr l k v) q = assocFindStr l q := by
  induction l with
  | nil =>
      simp only [assocSetStr, assocFindStr]
      rw [if_neg (fun he => h he.symm)]
  | cons e rest ih =>
      simp only [assocSetStr]
      split
      · rename_i hek
        simp only [assocFindStr]
        rw [if_neg (fun hkq => h hkq.symm), if_neg (by rw [hek]; exact fun hkq => h hkq.symm)]
      · simp only [assocFindStr]
        split
        · rfl
        · exact ih

/-- The number of already-processed pins whose lowercased name is `nm`. -/
def seenCount (prev : List Pin) (nm : String) : Nat :=
  (prev.filter (fun q => strLower q.name == nm)).length

/-- Correspondence between the `seen_names` dict and the processed
prefix: a name maps to its occurrence count, absent iff count zero. -/
def SeenInv (prev : List Pin) (seen : List (String × Nat)) : Prop :=
  ∀ nm, assocFindStr seen nm =
    (if seenCount prev nm = 0 then none else some (seenCount prev nm))

theorem seenCount_append (prev : List Pin) (p : Pin) (nm : String) :
    seenCount (prev ++ [p]) nm =
      seenCount prev nm + (if strLower p.name = nm then 1 else 0) := by
  unfold seenCount
  rw [List.filter_append, List.length_append]
  simp only [List.filter_cons, List.filter_nil]
  split
  · rename_i hb
    rw [if_pos (by simpa using hb)]
    simp
  · rename_i hb
    rw [if_neg (by simpa using hb)]
    simp

/-- Spec-words form of the signature disambiguation rule (4.4): on the
Nth occurrence (N ≥ 2) of a lowercased name, emit `<name><N-1>`; first
occurrences are emitted bare.  `prev` is the already-processed prefix. -/
def specSigNames (prev : List Pin) : List Pin → List String
  | [] => []
  | p :: rest =>
      let lname := strLower p.name
      let c := seenCount prev lname
      (if c = 0 then lname else lname ++ toString c) :: specSigNames (prev ++ [p]) rest

/-- The signature builder's running `seen_names` table realizes the
spec-words occurrence-count rule. -/
theorem sigNames_spec (pins : List Pin) (prev : List Pin) (seen : List (String × Nat))
    (hInv : SeenInv prev seen) :
    sigDisambigNames pins seen = specSigNames prev pins := by
  induction pins generalizing prev seen with
  | nil => rfl
  | cons p rest ih =>
      have hfind := hInv (strLower p.name)
      by_cases hc : seenCount prev (strLower p.name) = 0
      · rw [if_pos hc] at hfind
        have hstep : disambigStep seen (strLower p.name) =
            (strLower p.name, seen ++ [(strLower p.name, 1)]) := by
          unfold disambigStep
          rw [hfind]
        simp only [sigDisambigNames, specSigNames, hstep, if_pos hc]
        refine congrArg _ (ih (prev ++ [p]) _ ?_)
        intro nm
        rw [assocFindStr_append, hInv nm, seenCount_append]
        by_cases hnm : strLower p.name = nm
        · subst hnm
          rw [if_pos rfl, if_pos hc, hc]
          simp [assocFindStr]
        · rw [if_neg hnm]
          by_cases hz : seenCount prev nm = 0
          · rw [if_pos hz, hz]
            simp only [assocFindStr, Option.elim]
            rw [if_neg hnm]
            simp
          · rw [if_neg hz]
            rw [if_neg (by omega : ¬ seenCount prev nm + 0 = 0)]
            simp
      · rw [if_neg hc] at hfind
        have hstep : disambigStep seen (strLower p.name) =
            (strLower p.name ++ toString (seenCount prev (strLower p.name)),
             assocSetStr seen (strLower p.name) (seenCount prev (strLower p.name) + 1)) := by
          unfold disambigStep
          rw [hfind]
        simp only [sigDisambigNames, specSigNames, hstep, if_neg hc]
        refine congrArg _ (ih (prev ++ [p]) _ ?_)
        intro nm
        rw [seenCount_append]
        by_cases hnm : strLower p.name = nm
        · subst hnm
          rw [assocFindStr_set_self, if_pos rfl,
            if_neg (by omega : ¬ seenCount prev (strLower p.name) + 1 = 0)]
        · rw [assocFindStr_set_other _ _ _ _ (fun h => hnm h.symm), hInv nm, if_neg hnm]
          simp

/-- C3 counterexample graph: two input pins named `IN`, registered in
the order id 2, then id 1. -/
def exC3 : Graph := ⟨"Not", [⟨2, "IN", 1⟩, ⟨1, "IN", 1⟩], [], [], []⟩

/-- The claim's example graph: two input pins named `IN`, ids 1 and 2,
registered in that order. -/
def exC3asc : Graph := ⟨"Not", [⟨1, "IN", 1⟩, ⟨2, "IN", 1⟩], [], [], []⟩

/-- C3 counterexample: with the two `IN` pins registered in the order
id 2, id 1, the signature assigns the first-registered pin (id 2) the
bare identity `in`, but the per-connection wire expression for a wire
sourced at pin id 2 is `in1` — the signature disambiguates by
registration order while the wire resolver disambiguates by ascending
id, so the wire expression does not use the identity the signature
assigned. -/
theorem duplicate_disambiguation_cex :
    sigDisambigNames (pinVals exC3.inputPins) [] = ["in", "in1"]
    ∧ (getWireSourceName exC3 ⟨0, 2, 0, 99⟩ initConvState).1 = "in1"
    ∧ ("in1" : String) ≠ "in" :=
  ⟨by decide, by decide, by decide⟩

/-- C3 amended: the signature emits the first-registered occurrence of
a (lowercased) name bare and the Nth occurrence as `<name><N-1>` in
registration order; the per-connection wire expression instead
disambiguates among input pins sharing the same raw name by ascending
pin id (bare for the smallest id, `<name><k>` for the pin with `k`
same-named pins of smaller id), with the 4.3 bit-index rule on top.
The two rules agree on the claim's concrete instance: pins named `IN`
with ids 1, 2 registered in ascending order resolve to `in` and `in1`
in both places. -/
theorem duplicate_disambiguation_amended (g : Graph) (w : Wire) (pin : Pin)
    (hpin : pinLast g.inputPins w.sourceOwnerId = some pin) :
    sigDisambigNames (pinVals g.inputPins) [] = specSigNames [] (pinVals g.inputPins)
    ∧ (getWireSourceName g w initConvState).1 = specWireSourceName g w pin
    ∧ sigDisambigNames (pinVals exC3asc.inputPins) [] = ["in", "in1"]
    ∧ (getWireSourceName exC3asc ⟨0, 1, 0, 99⟩ initConvState).1 = "in"
    ∧ (getWireSourceName exC3asc ⟨0, 2, 0, 99⟩ initConvState).1 = "in1" := by
  refine ⟨?_, ?_, by decide, by decide, by decide⟩
  · exact sigNames_spec _ [] [] (fun nm => by simp [assocFindStr, seenCount])
  · have hd := disambigName_spec g w.sourceOwnerId pin hpin
    rw [getWireSourceName_input g w initConvState pin hpin]
    unfold specWireSourceName
    by_cases hcond : pin.bitCount > 1 ∧ w.sourcePinId < pin.bitCount
    · rw [if_pos hcond, if_pos hcond, hd]
    · rw [if_neg hcond, if_neg hcond, hd]

/-- Closed instance of `duplicate_disambiguation_amended` at the
claim's ascending-id example. -/
theorem duplicate_disambiguation_amended_witness :
    sigDisambigNames (pinVals exC3asc.inputPins) [] = specSigNames [] (pinVals exC3asc.inputPins)
    ∧ (getWireSourceName exC3asc ⟨0, 1, 0, 99⟩ initConvState).1 =
        specWireSourceName exC3asc ⟨0, 1, 0, 99⟩ ⟨1, "IN", 1⟩
    ∧ sigDisambigNames (pinVals exC3asc.inputPins) [] = ["in", "in1"]
    ∧ (getWireSourceName exC3asc ⟨0, 1, 0, 99⟩ initConvState).1 = "in"
    ∧ (getWireSourceName exC3asc ⟨0, 2, 0, 99⟩ initConvState).1 = "in1" :=
  duplicate_disambiguation_amended exC3asc ⟨0, 1, 0, 99⟩ ⟨1, "IN", 1⟩ (by decide)

/-! ## Claim C2: pass-through handling of wires into top-level outputs -/

/-- Reduction of the `connects_to_output` block: when some wire of the
bucket targets a registered top-level output pin `op`, the emitted value
is decided by the *enclosing module's* catalog entry. -/
theorem outputWireName_out (g : Graph) (chipName : Option String) (cid pid : Nat)
    (bucket : List Wire) (s : ConvState) (w : Wire) (op : Pin)
    (hw : bucket.find? (fun x => pinContains g.outputPins x.targetOwnerId) = some w)
    (hop : pinLast g.outputPins w.targetOwnerId = some op) :
    outputWireName g chipName cid pid bucket s =
      (match chipName.bind HackChipAPI.getChipSpec with
       | some spec =>
          if (pinVals g.outputPins).findIdx (fun p => p == op) < spec.outputs.length then
            (spec.outputs.getD ((pinVals g.outputPins).findIdx (fun p => p == op)) "", s)
          else getOrCreateWireName cid pid s
       | none => (removeChar ' ' (strLower op.name), s)) := by
  have hpred : pinContains g.outputPins w.targetOwnerId = true := by
    have := List.find?_some hw
    simpa using this
  have hconn : bucket.any (fun x => pinContains g.outputPins x.targetOwnerId) = true :=
    List.any_eq_true.mpr ⟨w, List.mem_of_find?_eq_some hw, by simpa using hpred⟩
  simp only [outputWireName, hconn, hw, Option.some_bind, hop, if_true]
  cases chipName.bind HackChipAPI.getChipSpec <;> rfl

/-- C2 example: module `Not` with one input pin `In` (id 0), one output
pin `Result` (id 1), and a `NOT` instance (id 2) wired input→instance
and instance→output. -/
def exG2 : Graph := ⟨"Not", [⟨0, "In", 1⟩], [⟨1, "Result", 1⟩], [⟨"NOT", 2, [1]⟩],
  [⟨0, 0, 0, 2⟩, ⟨1, 2, 0, 1⟩]⟩

/-- C2 counterexample: the wire into top-level output pin `Result` makes
the producing instance emit `out=out` — the *catalog output name of the
enclosing module's type* — not the output pin's own (disambiguated) name
`result`, which even appears as such in the `OUT` signature line.  So
the claim's "the emitted parameter value is that output pin's own name"
is false at this input. -/
theorem passthrough_elision_cex :
    (fullPass exG2).1.getD 9 "" = "    Not(in=in, out=out);"
    ∧ (fullPass exG2).1.getD 6 "" = "    OUT result;"
    ∧ removeChar ' ' (strLower (Pin.name ⟨1, "Result", 1⟩)) = "result"
    ∧ ("out" : String) ≠ "result"
    ∧ ((fullPass exG2).2).warnings = [] :=
  ⟨by decide, by decide, by decide, by decide, by decide⟩

/-- C2 amended: for a connected output pin of an instance one of whose
wires targets a registered top-level output pin, the emitted value is
decided by the catalog entry of the *enclosing module's* normalized
name (not the producing instance's): when that entry exists and the
referenced output pin's registry index is within its declared outputs,
the value is the catalog output name at that index and no identifier is
allocated; when the module's name has no catalog entry, the value is
the output pin's own lowercased space-stripped name and no identifier
is allocated; when the entry exists but the index is out of range, a
synthesized identifier is allocated; and in every case no diagnostic is
recorded. -/
theorem passthrough_elision_amended (g : Graph) (chipName : Option String) (cid pid : Nat)
    (bucket : List Wire) (s : ConvState) (w : Wire) (op : Pin)
    (hw : bucket.find? (fun x => pinContains g.outputPins x.targetOwnerId) = some w)
    (hop : pinLast g.outputPins w.targetOwnerId = some op) :
    (∀ spec, chipName.bind HackChipAPI.getChipSpec = some spec →
        (((pinVals g.outputPins).findIdx (fun p => p == op) < spec.outputs.length →
            outputWireName g chipName cid pid bucket s =
              (spec.outputs.getD ((pinVals g.outputPins).findIdx (fun p => p == op)) "", s))
          ∧ (¬ (pinVals g.outputPins).findIdx (fun p => p == op) < spec.outputs.length →
            outputWireName g chipName cid pid bucket s = getOrCreateWireName cid pid s)))
    ∧ (chipName.bind HackChipAPI.getChipSpec = none →
        outputWireName g chipName cid pid bucket s = (removeChar ' ' (strLower op.name), s))
    ∧ ((outputWireName g chipName cid pid bucket s).2).warnings = s.warnings := by
  have hred := outputWireName_out g chipName cid pid bucket s w op hw hop
  refine ⟨?_, ?_, ?_⟩
  · intro spec hspec
    rw [hred, hspec]
    dsimp only
    constructor
    · intro hlt
      rw [if_pos hlt]
    · intro hlt
      rw [if_neg hlt]
  · intro hnone
    rw [hred, hnone]
  · rw [hred]
    cases chipName.bind HackChipAPI.getChipSpec with
    | none => rfl
    | some spec =>
        dsimp only
        split
        · rfl
        · exact getOrCreate_warnings cid pid s

/-- Closed instance of `passthrough_elision_amended` at the C2
example's output pin. -/
theorem passthrough_elision_amended_witness :
    (∀ spec, (some "Not").bind HackChipAPI.getChipSpec = some spec →
        (((pinVals exG2.outputPins).findIdx (fun p => p == ⟨1, "Result", 1⟩) < spec.outputs.length →
            outputWireName exG2 (some "Not") 2 1 [⟨1, 2, 0, 1⟩] initConvState =
              (spec.outputs.getD ((pinVals exG2.outputPins).findIdx (fun p => p == ⟨1, "Result", 1⟩)) "",
                initConvState))
          ∧ (¬ (pinVals exG2.outputPins).findIdx (fun p => p == ⟨1, "Result", 1⟩) < spec.outputs.length →
            outputWireName exG2 (some "Not") 2 1 [⟨1, 2, 0, 1⟩] initConvState =
              getOrCreateWireName 2 1 initConvState)))
    ∧ ((some "Not").bind HackChipAPI.getChipSpec = none →
        outputWireName exG2 (some "Not") 2 1 [⟨1, 2, 0, 1⟩] initConvState =
          (removeChar ' ' (strLower (Pin.name ⟨1, "Result", 1⟩)), initConvState))
    ∧ ((outputWireName exG2 (some "Not") 2 1 [⟨1, 2, 0, 1⟩] initConvState).2).warnings =
        initConvState.warnings :=
  passthrough_elision_amended exG2 (some "Not") 2 1 [⟨1, 2, 0, 1⟩] initConvState
    ⟨1, 2, 0, 1⟩ ⟨1, "Result", 1⟩ (by decide) (by decide)

/-! ## Claim C5: unsupported-type skip and its diagnostics -/

/-- C5 failing input: a module `Not` containing one instance of the
removed type `Bus8`. -/
def exG5 : Graph := ⟨"Not", [], [], [⟨"Bus8", 5, []⟩], []⟩

/-- C5: at the failing input, one full lowering pass (construction plus
`convert()`) emits zero instantiation lines for the `Bus8` instance —
only a skip comment — but records the `UnsupportedType` diagnostic
TWICE, once from `_infer_pin_names` during construction and once from
the `convert()` loop, both of which re-call `_normalize_chip_name`;
the claim/spec requirement of exactly one diagnostic is violated. -/
theorem unsupported_skip_double_warning :
    (fullPass exG5).1 =
      ["// Converted from Digital Logic Sim (Sebastian Lague)",
       "// Original chip: Not",
       "// Fixed converter - compliant with Nand2tetris HDL specification",
       "",
       "CHIP Not \x7b",
       "    IN ;",
       "    OUT ;",
       "",
       "    PARTS:",
       "    // SKIPPED: Bus8 (não existe no Hack chip-set)",
       "\x7d"]
    ∧ ((fullPass exG5).2).warnings =
      ["WARNING: Chip \x27Bus8\x27 nao existe no Hack chip-set. Sera ignorado.",
       "WARNING: Chip \x27Bus8\x27 nao existe no Hack chip-set. Sera ignorado."]
    ∧ ((fullPass exG5).2).warnings.length ≠ 1 :=
  ⟨by decide, by decide, by decide⟩

/-! ## Claim C7: instances with zero resolved connections -/

/-- C7 example: a `NOT` instance with no wires at all. -/
def exG7 : Graph := ⟨"Not", [], [], [⟨"NOT", 3, []⟩], []⟩

/-- C7 counterexample: the zero-connection instance is emitted as a
comment line, not as a stub instantiation statement, and NO diagnostic
is recorded — the warnings list of the full pass is empty, refuting the
claim's "an EmptyConnections diagnostic is recorded for it". -/
theorem empty_connections_cex :
    (fullPass exG7).1 =
      ["// Converted from Digital Logic Sim (Sebastian Lague)",
       "// Original chip: Not",
       "// Fixed converter - compliant with Nand2tetris HDL specification",
       "",
       "CHIP Not \x7b",
       "    IN ;",
       "    OUT ;",
       "",
       "    PARTS:",
       "    // WARNING: Not has no connections",
       "\x7d"]
    ∧ ((fullPass exG7).2).warnings = []
    ∧ ¬ ((fullPass exG7).1.getD 9 "" = "    Not();") :=
  ⟨by decide, by decide, by decide⟩

theorem compInputWires_nil_of_no_wires (g : Graph) (cid : Nat)
    (h : ∀ w ∈ g.wires, w.targetOwnerId ≠ cid) (pid : Nat) :
    compInputWires g cid pid = [] := by
  unfold compInputWires
  rw [List.filter_eq_nil_iff]
  intro w hw
  simp only [Bool.and_eq_true, beq_iff_eq, not_and]
  intro hx
  exact absurd hx (h w hw)

theorem compOutputWires_nil_of_no_wires (g : Graph) (cid : Nat)
    (h : ∀ w ∈ g.wires, w.sourceOwnerId ≠ cid) (pid : Nat) :
    compOutputWires g cid pid = [] := by
  unfold compOutputWires
  rw [List.filter_eq_nil_iff]
  intro w hw
  simp only [Bool.and_eq_true, beq_iff_eq, not_and]
  intro hx
  exact absurd hx (h w hw)

theorem inputPinIdsInOrder_nil_of_no_wires (g : Graph) (cid : Nat)
    (h : ∀ w ∈ g.wires, w.targetOwnerId ≠ cid) :
    inputPinIdsInOrder g cid = [] := by
  unfold inputPinIdsInOrder
  have hf : g.wires.filter (fun w => w.targetOwnerId == cid) = [] := by
    rw [List.filter_eq_nil_iff]
    intro w hw
    simpa using h w hw
  rw [hf]
  rfl

theorem outputPinIdsInOrder_nil_of_no_wires (g : Graph) (cid : Nat)
    (h : ∀ w ∈ g.wires, w.sourceOwnerId ≠ cid) :
    outputPinIdsInOrder g cid = [] := by
  unfold outputPinIdsInOrder
  have hf : g.wires.filter (fun w => w.sourceOwnerId == cid) = [] := by
    rw [List.filter_eq_nil_iff]
    intro w hw
    simpa using h w hw
  rw [hf]
  rfl

theorem buildOutputConns_nil_buckets (g : Graph) (c : SubChip) (chipName : Option String)
    (outNames : List (Nat × String)) :
    ∀ (l : List Nat) (s : ConvState), (∀ pid ∈ l, compOutputWires g c.id pid = []) →
      buildOutputConns g c chipName outNames l s = ([], s)
  | [], _, _ => rfl
  | pid :: rest, s, h => by
      simp only [buildOutputConns, h pid (List.mem_cons_self pid rest)]
      exact buildOutputConns_nil_buckets g c chipName outNames rest s
        (fun p hp => h p (List.mem_cons_of_mem pid hp))

theorem convertComps_length (g : Graph) (chipName : Option String) (cs : List SubChip)
    (s : ConvState) : ((convertComps g chipName cs s).1).length = cs.length := by
  induction cs generalizing s with
  | nil => simp [convertComps]
  | cons c rest ih => simp [convertComps, ih]

/-- The C7 probe instance: declared output order `[7]`, one outgoing
wire from the undeclared pin 5, nothing else — zero resolved
connections despite an incident wire. -/
def exG7b : Graph := ⟨"Not", [], [], [⟨"NOT", 3, [7]⟩], [⟨5, 3, 0, 99⟩]⟩

/-- C7 amended: an instance with zero *resolved* connections — no
first-seen input pin, and an empty wire bucket for every pin of the
iterated output order (declared order when non-empty, else first-seen
order) — whose type normalizes to a (non-removed) name is emitted as
the visible comment line `// WARNING: <type> has no connections`, not
as an instantiation statement, with NO diagnostic recorded for it
(only the warnings of the normalizer itself, empty for catalog types,
are re-appended); and no instance is ever silently dropped: the `PARTS:`
body contains exactly one line per registered instance.  The
hypotheses exactly characterize the `connections == []` branch of
`convert`, covering instances whose incident output wires all leave
pins outside a non-empty `declaredOutputOrder`. -/
theorem empty_connections_amended (g : Graph) (chipName : Option String) (c : SubChip)
    (s : ConvState) (nm : String)
    (hnorm : (normalizeChipName c.name).1 = some nm)
    (hin : inputPinIdsInOrder g c.id = [])
    (hout : ∀ pid ∈ (if c.outputPinIds.isEmpty then outputPinIdsInOrder g c.id
        else c.outputPinIds), compOutputWires g c.id pid = []) :
    (convertComp g chipName c s).1 = "    // WARNING: " ++ nm ++ " has no connections"
    ∧ ((convertComp g chipName c s).2).warnings = s.warnings ++ (normalizeChipName c.name).2
    ∧ ∀ cs : List SubChip, ((convertComps g chipName cs s).1).length = cs.length := by
  rcases hE : normalizeChipName c.name with ⟨o, wN⟩
  rw [hE] at hnorm
  simp only at hnorm
  subst hnorm
  by_cases hcase : c.outputPinIds.isEmpty = true
  · rw [if_pos hcase] at hout
    refine ⟨?_, ?_, fun cs => convertComps_length g chipName cs s⟩
    · simp only [convertComp, hE, hin]
      rw [if_pos hcase, buildOutputConns_nil_buckets g c chipName _ _ _ hout]
      rfl
    · simp only [convertComp, hE, hin]
      rw [if_pos hcase, buildOutputConns_nil_buckets g c chipName _ _ _ hout]
      rfl
  · rw [if_neg hcase] at hout
    refine ⟨?_, ?_, fun cs => convertComps_length g chipName cs s⟩
    · simp only [convertComp, hE, hin]
      rw [if_neg hcase, buildOutputConns_nil_buckets g c chipName _ _ _ hout]
      rfl
    · simp only [convertComp, hE, hin]
      rw [if_neg hcase, buildOutputConns_nil_buckets g c chipName _ _ _ hout]
      rfl

/-- Closed instance of `empty_connections_amended` at the probe graph:
the instance has an incident wire (out of undeclared pin 5) yet zero
resolved connections, and is emitted as the comment line with no
diagnostic. -/
theorem empty_connections_amended_witness :
    (convertComp exG7b (some "Not") ⟨"NOT", 3, [7]⟩ initConvState).1 =
      "    // WARNING: " ++ "Not" ++ " has no connections"
    ∧ ((convertComp exG7b (some "Not") ⟨"NOT", 3, [7]⟩ initConvState).2).warnings =
        initConvState.warnings ++ (normalizeChipName (SubChip.name ⟨"NOT", 3, [7]⟩)).2
    ∧ ∀ cs : List SubChip,
        ((convertComps exG7b (some "Not") cs initConvState).1).length = cs.length :=
  empty_connections_amended exG7b (some "Not") ⟨"NOT", 3, [7]⟩ initConvState "Not"
    (by decide) (by decide) (by decide)

/-! ## Claim C6: arity overflow on catalog inputs -/

/-- A normalized name with a catalog entry triggers no warning inside
`_normalize_chip_name`. -/
theorem normalize_valid_no_warn (n nm : String)
    (h1 : (normalizeChipName n).1 = some nm) (h2 : HackChipAPI.isValidChip nm = true) :
    (normalizeChipName n).2 = [] := by
  unfold normalizeChipName at h1 ⊢
  cases hm : nameMapLookup (processedName n) with
  | none =>
      rw [hm] at h1
      dsimp only at h1 ⊢
      have hpn : processedName n = nm := by injection h1
      rw [hpn, h2]
      rfl
  | some o =>
      cases o with
      | none =>
          rw [hm] at h1
          dsimp only at h1
          exact absurd h1 (by simp)
      | some m =>
          rw [hm] at h1
          dsimp only at h1 ⊢
          have hpn : m = nm := by injection h1
          rw [hpn, h2]
          rfl

/-- Positional lookup in the catalog-driven name assignment. -/
theorem assignNames_get (declared : List String) (pfx : String) :
    ∀ (ids : List Nat) (start idx pid : Nat), ids.Nodup → ids.get? idx = some pid →
      assocFindNat (assignNames declared pfx ids start) pid =
        some (declared.getD (start + idx) (pfx ++ toString (start + idx)))
  | [], _, idx, _, _, h => by simp at h
  | i :: rest, start, 0, pid, hnodup, hget => by
      simp only [List.get?] at hget
      cases hget
      simp [assignNames, assocFindNat]
  | i :: rest, start, (k+1), pid, hnodup, hget => by
      rw [List.nodup_cons] at hnodup
      simp only [List.get?] at hget
      have hne : ¬ i = pid := fun he => hnodup.1 (he ▸ List.get?_mem hget)
      simp only [assignNames, assocFindNat]
      rw [if_neg hne, assignNames_get declared pfx rest (start + 1) k pid hnodup.2 hget]
      have hadd : start + 1 + k = start + (k + 1) := by omega
      rw [hadd]

/-- A pin id in the first-seen input order has a non-empty wire bucket. -/
theorem compInputWires_ne_nil_of_mem (g : Graph) (cid pid : Nat)
    (h : pid ∈ inputPinIdsInOrder g cid) : compInputWires g cid pid ≠ [] := by
  unfold inputPinIdsInOrder at h
  rw [dedupFirst_mem] at h
  obtain ⟨w, hw, hpid⟩ := List.mem_map.mp h
  rw [List.mem_filter] at hw
  intro hnil
  have hwmem : w ∈ compInputWires g cid pid := by
    unfold compInputWires
    rw [List.mem_filter]
    refine ⟨hw.1, ?_⟩
    simp only [Bool.and_eq_true, beq_iff_eq]
    exact ⟨by simpa using hw.2, hpid⟩
  rw [hnil] at hwmem
  simp at hwmem

/-- The input-connection loop emits at least one parameter when the
first connected pin has a wire. -/
theorem buildInputConns_ne_nil (g : Graph) (c : SubChip) (inNames : List (Nat × String))
    (pid : Nat) (rest : List Nat) (s : ConvState)
    (hb : compInputWires g c.id pid ≠ []) :
    (buildInputConns g c inNames (pid :: rest) s).1 ≠ [] := by
  obtain ⟨w, ws, hw⟩ := List.exists_cons_of_ne_nil hb
  simp only [buildInputConns, hw]
  simp

/-- The C6 counterexample instance: a `NOT` with two connected input
pins and two connected output pins, `OutputPinColourInfo` empty. -/
def exC6c : SubChip := ⟨"NOT", 5, []⟩

/-- The C6 counterexample graph. -/
def exG6 : Graph := ⟨"Not", [], [], [exC6c],
  [⟨0, 100, 0, 5⟩, ⟨0, 100, 1, 5⟩, ⟨2, 5, 0, 200⟩, ⟨3, 5, 0, 200⟩]⟩

/-- C6 counterexample: an instance of catalog type `Not` (1 declared
input) fed 2 input wires records TWO ArityOverflow diagnostics in one
pass — the input-side one plus an output-side one (its 2 connected
output pins also exceed the 1 declared output and its declared output
order is empty) — refuting the claim's "exactly one ArityOverflow
diagnostic is recorded for that instance". -/
theorem arity_overflow_cex :
    (inputPinIdsInOrder exG6 5).length = 2
    ∧ (HackChipAPI.getChipSpec "Not").elim 0 (fun spec => spec.inputs.length) = 1
    ∧ (normalizeChipName (SubChip.name exC6c)).1 = some "Not"
    ∧ (inferForComp exG6 exC6c).warns =
        ["WARNING: NOT (ID 5): Tem 2 inputs, mas API espera 1",
         "WARNING: NOT (ID 5): Tem 2 outputs, mas API espera 1"]
    ∧ ((inferForComp exG6 exC6c).warns).length ≠ 1 :=
  ⟨by decide, by decide, by decide, by decide, by decide⟩

/-- C6 amended: for an instance of a catalog type whose connected input
pins outnumber the declared inputs, each excess pin at zero-based
first-seen position `idx` receives the synthesized name `in<idx>`;
exactly one input-side ArityOverflow diagnostic is recorded, followed by
one output-side ArityOverflow diagnostic exactly when the declared
output order is empty and the connected outputs also overflow; and
lowering continues — the instance is still emitted as an instantiation
statement. -/
theorem arity_overflow_amended (g : Graph) (c : SubChip) (nm : String) (spec : ChipSpec)
    (chipName : Option String) (s : ConvState)
    (hnorm : (normalizeChipName c.name).1 = some nm)
    (hspec : HackChipAPI.getChipSpec nm = some spec)
    (hover : (inputPinIdsInOrder g c.id).length > spec.inputs.length) :
    (∀ idx pid, (inputPinIdsInOrder g c.id).get? idx = some pid →
        spec.inputs.length ≤ idx →
        assocFindNat (inferForComp g c).inNames pid = some ("in" ++ toString idx))
    ∧ (inferForComp g c).warns =
        arityMsg c "inputs" (inputPinIdsInOrder g c.id).length spec.inputs.length ::
          (if c.outputPinIds.isEmpty then
            (if (outputPinIdsInOrder g c.id).length > spec.outputs.length then
              [arityMsg c "outputs" (outputPinIdsInOrder g c.id).length spec.outputs.length]
            else [])
          else [])
    ∧ ∃ body, (convertComp g chipName c s).1 = "    " ++ nm ++ "(" ++ body ++ ");" := by
  have hvalid : HackChipAPI.isValidChip nm = true := by
    unfold HackChipAPI.isValidChip
    rw [hspec]
    rfl
  have hwN : (normalizeChipName c.name).2 = [] := normalize_valid_no_warn c.name nm hnorm hvalid
  rcases hE : normalizeChipName c.name with ⟨o, wN⟩
  rw [hE] at hnorm hwN
  simp only at hnorm hwN
  subst hnorm
  subst hwN
  have hinNames : (inferForComp g c).inNames =
      assignNames spec.inputs "in" (inputPinIdsInOrder g c.id) 0 := by
    simp only [inferForComp, hE, hspec]
    split <;> rfl
  refine ⟨?_, ?_, ?_⟩
  · intro idx pid hget hge
    rw [hinNames,
      assignNames_get spec.inputs "in" (inputPinIdsInOrder g c.id) 0 idx pid
        (by unfold inputPinIdsInOrder; exact dedupFirst_nodup _) hget]
    rw [Nat.zero_add, List.getD_eq_default spec.inputs _ hge]
  · simp only [inferForComp, hE, hspec]
    rw [if_pos hover]
    split
    · split
      · simp
      · simp
    · simp
  · have hids : inputPinIdsInOrder g c.id ≠ [] := by
      intro h
      rw [h] at hover
      simp at hover
    obtain ⟨pid0, rest, hids2⟩ := List.exists_cons_of_ne_nil hids
    have hb : compInputWires g c.id pid0 ≠ [] :=
      compInputWires_ne_nil_of_mem g c.id pid0 (by rw [hids2]; exact List.mem_cons_self _ _)
    simp only [convertComp, hE]
    have hne : ∀ (s2 : ConvState) (B : List String),
        ((buildInputConns g c (inferForComp g c).inNames (inputPinIdsInOrder g c.id) s2).1
          ++ B).isEmpty = false := by
      intro s2 B
      have h0 := buildInputConns_ne_nil g c (inferForComp g c).inNames pid0 rest s2 hb
      rw [← hids2] at h0
      cases hh : (buildInputConns g c (inferForComp g c).inNames (inputPinIdsInOrder g c.id) s2).1 with
      | nil => exact absurd hh h0
      | cons a as => rfl
    rw [hne]
    exact ⟨_, rfl⟩

/-- Closed instance of `arity_overflow_amended` at the counterexample
graph (2 input wires on 1 declared input): position 1 gets `in1`. -/
theorem arity_overflow_amended_witness :
    (∀ idx pid, (inputPinIdsInOrder exG6 (SubChip.id exC6c)).get? idx = some pid →
        (ChipSpec.inputs ⟨["in"], ["out"]⟩).length ≤ idx →
        assocFindNat (inferForComp exG6 exC6c).inNames pid = some ("in" ++ toString idx))
    ∧ (inferForComp exG6 exC6c).warns =
        arityMsg exC6c "inputs" (inputPinIdsInOrder exG6 (SubChip.id exC6c)).length
            (ChipSpec.inputs ⟨["in"], ["out"]⟩).length ::
          (if (SubChip.outputPinIds exC6c).isEmpty then
            (if (outputPinIdsInOrder exG6 (SubChip.id exC6c)).length >
                (ChipSpec.outputs ⟨["in"], ["out"]⟩).length then
              [arityMsg exC6c "outputs" (outputPinIdsInOrder exG6 (SubChip.id exC6c)).length
                (ChipSpec.outputs ⟨["in"], ["out"]⟩).length]
            else [])
          else [])
    ∧ ∃ body, (convertComp exG6 (some "Not") exC6c initConvState).1 =
        "    " ++ "Not" ++ "(" ++ body ++ ");" :=
  arity_overflow_amended exG6 exC6c "Not" ⟨["in"], ["out"]⟩ (some "Not") initConvState
    (by decide) (by decide) (by decide)

/-! ## Claim C10: output pins outside `declaredOutputOrder` -/

theorem getOrCreate_find_other (c p : Nat) (s : ConvState) (k : Nat × Nat)
    (hk : k ≠ (c, p)) :
    assocFind ((getOrCreateWireName c p s).2).wireNameMap k = assocFind s.wireNameMap k := by
  unfold getOrCreateWireName
  cases hf : assocFind s.wireNameMap (c, p) with
  | some n => rfl
  | none =>
      simp only
      rw [assocFind_append]
      cases hg : assocFind s.wireNameMap k with
      | some v => rfl
      | none =>
          simp only [Option.elim, assocFind]
          rw [if_neg (fun h => hk h.symm)]

/-- The per-output-pin resolver either keeps the state or performs one
allocator call on `(cid, pid)`. -/
theorem outputWireName_state (g : Graph) (chipName : Option String) (cid pid : Nat)
    (bucket : List Wire) (s : ConvState) :
    (outputWireName g chipName cid pid bucket s).2 = s ∨
      (outputWireName g chipName cid pid bucket s).2 = (getOrCreateWireName cid pid s).2 := by
  unfold outputWireName
  dsimp only
  split
  · split
    · split
      · left; rfl
      · right; rfl
    · left; rfl
    · right; rfl
  · right; rfl

/-- Keys other than the iterated `(c.id, pid)` pairs are untouched by
the output-connection loop. -/
theorem buildOutputConns_find_other (g : Graph) (c : SubChip) (chipName : Option String)
    (outNames : List (Nat × String)) (q : Nat) :
    ∀ (l : List Nat) (s : ConvState), q ∉ l →
      assocFind ((buildOutputConns g c chipName outNames l s).2).wireNameMap (c.id, q) =
        assocFind s.wireNameMap (c.id, q)
  | [], s, _ => rfl
  | pid :: rest, s, hq => by
      simp only [List.mem_cons, not_or] at hq
      cases hb : compOutputWires g c.id pid with
      | nil =>
          simp only [buildOutputConns, hb]
          exact buildOutputConns_find_other g c chipName outNames q rest s hq.2
      | cons w bs =>
          simp only [buildOutputConns, hb]
          rw [buildOutputConns_find_other g c chipName outNames q rest _ hq.2]
          have hkey : ((c.id, q) : Nat × Nat) ≠ (c.id, pid) := fun h =>
            hq.1 (congrArg Prod.snd h)
          rcases outputWireName_state g chipName c.id pid (w :: bs) s with hs | hs
          · rw [hs]
          · rw [hs]
            exact getOrCreate_find_other c.id pid s (c.id, q) hkey

/-- Every parameter emitted by the output-connection loop belongs to a
pin id of the iterated order list. -/
theorem buildOutputConns_params (g : Graph) (c : SubChip) (chipName : Option String)
    (outNames : List (Nat × String)) :
    ∀ (l : List Nat) (s : ConvState), ∀ cs ∈ (buildOutputConns g c chipName outNames l s).1,
      ∃ pid ∈ l, ∃ rhs,
        cs = ((assocFindNat outNames pid).getD ("out" ++ toString pid)) ++ "=" ++ rhs
  | [], s => by simp [buildOutputConns]
  | pid :: rest, s => by
      intro cs hcs
      cases hb : compOutputWires g c.id pid with
      | nil =>
          simp only [buildOutputConns, hb] at hcs
          obtain ⟨pid2, hp2, rhs, hrhs⟩ :=
            buildOutputConns_params g c chipName outNames rest s cs hcs
          exact ⟨pid2, List.mem_cons_of_mem pid hp2, rhs, hrhs⟩
      | cons w bs =>
          simp only [buildOutputConns, hb, List.mem_cons] at hcs
          rcases hcs with hcs | hcs
          · exact ⟨pid, List.mem_cons_self pid rest,
              (outputWireName g chipName c.id pid (w :: bs) s).1, hcs⟩
          · obtain ⟨pid2, hp2, rhs, hrhs⟩ :=
              buildOutputConns_params g c chipName outNames rest _ cs hcs
            exact ⟨pid2, List.mem_cons_of_mem pid hp2, rhs, hrhs⟩

theorem assignNames_not_mem (declared : List String) (pfx : String) :
    ∀ (ids : List Nat) (start q : Nat), q ∉ ids →
      assocFindNat (assignNames declared pfx ids start) q = none
  | [], _, _, _ => rfl
  | i :: rest, start, q, hq => by
      simp only [List.mem_cons, not_or] at hq
      simp only [assignNames, assocFindNat]
      rw [if_neg (fun h => hq.1 h.symm)]
      exact assignNames_not_mem declared pfx rest (start + 1) q hq.2

/-- The C10 producing instance: `declaredOutputOrder = [0]`, but its
only outgoing wire leaves pin 5. -/
def exA10 : SubChip := ⟨"NOT", 10, [0]⟩

/-- The C10 graph: instance 10 drives instance 11 from its (undeclared)
output pin 5. -/
def exG10 : Graph := ⟨"Not", [⟨1, "A", 1⟩], [], [exA10, ⟨"NOT", 11, []⟩],
  [⟨0, 1, 0, 10⟩, ⟨5, 10, 0, 11⟩]⟩

/-- C10 counterexample: instance 10's connected output pin 5 is not in
its non-empty `declaredOutputOrder` and indeed receives no parameter in
the emitted statement (`Not(in=a);`), but an internal identifier `w1`
IS allocated for `(10, 5)` during the pass — by the consuming instance
11 — refuting the claim's "it receives … no internal identifier". -/
theorem declared_output_order_cex :
    SubChip.outputPinIds exA10 = [0]
    ∧ (5 ∉ SubChip.outputPinIds exA10)
    ∧ compOutputWires exG10 10 5 ≠ []
    ∧ (fullPass exG10).1.getD 9 "" = "    Not(in=a);"
    ∧ (fullPass exG10).1.getD 10 "" = "    Not(in=w1);"
    ∧ assocFind ((fullPass exG10).2).wireNameMap (10, 5) = some "w1" :=
  ⟨by decide, by decide, by decide, by decide, by decide, by decide⟩

/-- C10 amended: for a catalog-type instance with a non-empty
`declaredOutputOrder`, a connected output pin `q` outside that order is
silently omitted from the instance's own statement: every emitted
output parameter belongs to a declared pin id, `q` is assigned no pin
name, the instance's own output processing allocates no identifier for
`(instanceId, q)`, and the only diagnostics recorded for the instance
concern input arity — however, a consuming instance reading pin `q` may
still allocate an internal identifier for it (see the counterexample). -/
theorem declared_output_order_amended (g : Graph) (c : SubChip) (chipName : Option String)
    (nm : String) (spec : ChipSpec) (q : Nat) (s : ConvState)
    (hne : c.outputPinIds ≠ [])
    (hq : q ∉ c.outputPinIds)
    (hnorm : (normalizeChipName c.name).1 = some nm)
    (hspec : HackChipAPI.getChipSpec nm = some spec) :
    (∀ cs ∈ (buildOutputConns g c chipName (inferForComp g c).outNames c.outputPinIds s).1,
        ∃ pid ∈ c.outputPinIds, ∃ rhs,
          cs = ((assocFindNat (inferForComp g c).outNames pid).getD
            ("out" ++ toString pid)) ++ "=" ++ rhs)
    ∧ assocFindNat (inferForComp g c).outNames q = none
    ∧ assocFind ((buildOutputConns g c chipName (inferForComp g c).outNames
          c.outputPinIds s).2).wireNameMap (c.id, q) = assocFind s.wireNameMap (c.id, q)
    ∧ (inferForComp g c).warns =
        (if (inputPinIdsInOrder g c.id).length > spec.inputs.length then
          [arityMsg c "inputs" (inputPinIdsInOrder g c.id).length spec.inputs.length]
        else []) := by
  have hvalid : HackChipAPI.isValidChip nm = true := by
    unfold HackChipAPI.isValidChip
    rw [hspec]
    rfl
  have hwN : (normalizeChipName c.name).2 = [] := normalize_valid_no_warn c.name nm hnorm hvalid
  rcases hE : normalizeChipName c.name with ⟨o, wN⟩
  rw [hE] at hnorm hwN
  simp only at hnorm hwN
  subst hnorm
  subst hwN
  have hie : ¬ (c.outputPinIds.isEmpty = true) := fun h => hne (List.isEmpty_iff.mp h)
  have houtNames : (inferForComp g c).outNames =
      assignNames spec.outputs "out" c.outputPinIds 0 := by
    simp only [inferForComp, hE, hspec]
    rw [if_neg hie]
  refine ⟨?_, ?_, ?_, ?_⟩
  · exact buildOutputConns_params g c chipName (inferForComp g c).outNames c.outputPinIds s
  · rw [houtNames]
    exact assignNames_not_mem spec.outputs "out" c.outputPinIds 0 q hq
  · exact buildOutputConns_find_other g c chipName (inferForComp g c).outNames q
      c.outputPinIds s hq
  · simp only [inferForComp, hE, hspec]
    rw [if_neg hie]
    split <;> rfl

/-- Closed instance of `declared_output_order_amended` at the C10
graph's producing instance and its undeclared pin 5. -/
theorem declared_output_order_amended_witness :
    (∀ cs ∈ (buildOutputConns exG10 exA10 (some "Not") (inferForComp exG10 exA10).outNames
          (SubChip.outputPinIds exA10) initConvState).1,
        ∃ pid ∈ SubChip.outputPinIds exA10, ∃ rhs,
          cs = ((assocFindNat (inferForComp exG10 exA10).outNames pid).getD
            ("out" ++ toString pid)) ++ "=" ++ rhs)
    ∧ assocFindNat (inferForComp exG10 exA10).outNames 5 = none
    ∧ assocFind ((buildOutputConns exG10 exA10 (some "Not")
          (inferForComp exG10 exA10).outNames (SubChip.outputPinIds exA10)
          initConvState).2).wireNameMap (SubChip.id exA10, 5) =
        assocFind initConvState.wireNameMap (SubChip.id exA10, 5)
    ∧ (inferForComp exG10 exA10).warns =
        (if (inputPinIdsInOrder exG10 (SubChip.id exA10)).length >
            (ChipSpec.inputs ⟨["in"], ["out"]⟩).length then
          [arityMsg exA10 "inputs" (inputPinIdsInOrder exG10 (SubChip.id exA10)).length
            (ChipSpec.inputs ⟨["in"], ["out"]⟩).length]
        else []) :=
  declared_output_order_amended exG10 exA10 (some "Not") "Not" ⟨["in"], ["out"]⟩ 5
    initConvState (by decide) (by decide) (by decide) (by decide)
